import Mathlib

/-!
Shallow embedding of the price-resolution and profitability-computation
engine of the eve_scripts repository, centred on
`t2_component_profitability_jita.py` (with `adv_moon_materials.py` as a
second instance of the same engine differing only in its multiplier chain).

Prices are modelled as rationals (the scripts use Python floats; all claims
are stated "floating-point tolerance aside"). The remote market service is
modelled as an oracle from request index to response, and the unbounded
retry loop is given explicit fuel: a `none` result means the loop did not
finish within the given fuel.
-/

namespace EveScripts

/-- One resting market order, as consumed by the scripts: the JSON fields
`location_id` (may be absent, `order.get`), `price` (always read), and
`volume_remain` (read with default 0). -/
structure Order where
  location_id : Option Nat
  price : ℚ
  volume_remain : Option Nat
deriving DecidableEq, Repr

/-- One HTTP response of the market service for a page request:
its status code, the decoded JSON body (a list of orders, meaningful for
status 200), and the optional `X-Pages` header. -/
structure Resp where
  status_code : Nat
  orders : List Order
  x_pages : Option Nat

/-- The check `resp.status_code in (420, 429, 500, 503, 504)`. -/
def isTransient (c : Nat) : Bool :=
  decide (c = 420 ∨ c = 429 ∨ c = 500 ∨ c = 503 ∨ c = 504)

/-- The call `resp.raise_for_status()` raises exactly for 4xx and 5xx codes. -/
def raisesFor (c : Nat) : Bool :=
  decide (400 ≤ c ∧ c < 600)

/-- The body of the `for order in orders` loop of `get_best_order_in_jita`:
skip orders not at the Jita 4-4 station, otherwise keep the higher-priced
order when buying (`is_buy`) and the lower-priced order when selling,
with the incumbent winning ties (strict comparisons in the source). -/
def considerOrder (b : Bool) (station : Nat) (best : Option Order) (o : Order) : Option Order :=
  if o.location_id ≠ some station then best
  else
    match best with
    | none => some o
    | some cur =>
      if b then
        if cur.price < o.price then some o else some cur
      else
        if o.price < cur.price then some o else some cur

/-- The strict comparison of the selection step: on the buy side a
higher price wins, on the sell side a lower price wins. -/
def beats (b : Bool) (cur o : Order) : Bool :=
  if b then decide (cur.price < o.price) else decide (o.price < cur.price)

/-- The running best over a list of already venue-matched orders,
starting from incumbent `cur`; the incumbent wins ties. -/
def chooseBest (b : Bool) (cur : Order) : List Order → Order
  | [] => cur
  | o :: rest => chooseBest b (if beats b cur o then o else cur) rest

/-- The `while page <= max_pages` pagination loop of `get_best_order_in_jita`.
`svc` maps the index of each HTTP request issued by this call to its
response; `fuel` bounds the number of requests (the source has no bound:
`none` means the loop is still running when the fuel runs out).
`some (Except.error c)` is the exception raised by `raise_for_status`;
`some (Except.ok best)` is a normal return. -/
def fetchLoop (b : Bool) (station mp : Nat) (svc : Nat → Resp) :
    Nat → Nat → Nat → Option Order → Option (Except Nat (Option Order))
  | 0, _, _, _ => none
  | fuel+1, i, page, best =>
    if mp < page then some (Except.ok best)
    else
      let r := svc i
      if isTransient r.status_code then
        fetchLoop b station mp svc fuel (i+1) page best
      else if r.status_code = 204 then some (Except.ok best)
      else if raisesFor r.status_code then some (Except.error r.status_code)
      else if r.orders.isEmpty then some (Except.ok best)
      else
        let best2 := r.orders.foldl (considerOrder b station) best
        match r.x_pages with
        | none => some (Except.ok best2)
        | some total =>
          if total ≤ page then some (Except.ok best2)
          else fetchLoop b station mp svc fuel (i+1) (page+1) best2

/-- A per-side best-order cache, keyed by type id (a Python dict). -/
def Cache : Type := Nat → Option Order

/-- The assignment `cache[type_id] = best_order`. -/
def Cache.store (c : Cache) (k : Nat) (v : Order) : Cache :=
  fun k2 => if k2 = k then some v else c k2

/-- The function `get_best_order_in_jita` with a (non-`None`) cache: consult the cache
first; on a miss run the pagination loop and cache a non-absent result.
The third component counts whether this call performed a network fetch
(0 = pure cache hit, 1 = the pagination loop ran). -/
def get_best_order_in_jita (svc : Nat → Resp) (fuel : Nat) (type_id : Nat)
    (b : Bool) (mp station : Nat) (cache : Cache) :
    Option (Except Nat (Option Order)) × Cache × Nat :=
  match cache type_id with
  | some o => (some (Except.ok (some o)), cache, 0)
  | none =>
    match fetchLoop b station mp svc fuel 0 1 none with
    | none => (none, cache, 1)
    | some (Except.error c) => (some (Except.error c), cache, 1)
    | some (Except.ok none) => (some (Except.ok none), cache, 1)
    | some (Except.ok (some bo)) =>
      (some (Except.ok (some bo)), cache.store type_id bo, 1)

/-- One call made against a shared per-side cache during a run: the item's
type id, the side, and the behaviour of the market service (oracle and
fuel) for this call's pagination loop if it runs. -/
structure CallSpec where
  type_id : Nat
  buy : Bool
  svc : Nat → Resp
  fuel : Nat
  mp : Nat
  station : Nat

/-- A run-scoped sequence of `get_best_order_in_jita` calls threading one
cache, returning the final cache and the per-call trace of
(type id, result, fetch count). -/
def runCalls (c : Cache) :
    List CallSpec → Cache × List (Nat × Option (Except Nat (Option Order)) × Nat)
  | [] => (c, [])
  | k :: rest =>
    let r := get_best_order_in_jita k.svc k.fuel k.type_id k.buy k.mp k.station c
    let tail := runCalls r.2.1 rest
    (tail.1, (k.type_id, r.1, r.2.2) :: tail.2)

/-- A recipe: the `{"materials": {...}}` table entry, with dict insertion
order preserved as a list. Quantities are rationals: integral in the T2
component script, fractional in the advanced-moon-materials script. -/
structure Recipe where
  materials : List (String × ℚ)

/-- Constant `MATERIAL_COST_MULTIPLIER` of `t2_component_profitability_jita.py`. -/
def MATERIAL_COST_MULTIPLIER : ℚ := 0.9

/-- Constant `OVERHEAD_COST_MULTIPLIER` of `t2_component_profitability_jita.py`. -/
def OVERHEAD_COST_MULTIPLIER : ℚ := 1.15

/-- Constant `MATERIAL_COST_MULTIPLIER` of `adv_moon_materials.py`. -/
def ADV_MATERIAL_COST_MULTIPLIER : ℚ := 1

/-- Constant `OVERHEAD_COST_MULTIPLIER` of `adv_moon_materials.py`. -/
def ADV_OVERHEAD_COST_MULTIPLIER : ℚ := 1.055

/-- Constant `REACTION_TAX` of `adv_moon_materials.py`. -/
def REACTION_TAX : ℚ := 1.1

/-- The dict returned by `compute_component_profit` on success. -/
structure ProfitResult where
  name : String
  profit_isk : ℚ
  profit_pct : ℚ
  buy_volume : Nat
  sell_price : ℚ
  cost : ℚ
deriving DecidableEq, Repr

/-- The `for mat_name, base_qty in materials.items()` loop of
`compute_component_profit`, accumulating `total_raw_material_cost`:
fails (`None`) when a material has no resolved type id or no best
sell order. `getBest tid b` is the value of
`get_best_order_in_jita(tid, is_buy=b, cache=...)` under the run's caches. -/
def materialsLoop (getBest : Nat → Bool → Option Order)
    (type_ids : String → Option Nat) (acc : ℚ) :
    List (String × ℚ) → Option ℚ
  | [] => some acc
  | (mat_name, base_qty) :: rest =>
    match type_ids mat_name with
    | none => none
    | some mat_type_id =>
      match getBest mat_type_id false with
      | none => none
      | some sell_order =>
        materialsLoop getBest type_ids (acc + base_qty * sell_order.price) rest

/-- The function `compute_component_profit`, parameterised by the discount and overhead
multipliers (module-level constants in each script). -/
def compute_component_profit_with (discount overhead : ℚ)
    (getBest : Nat → Bool → Option Order) (component_name : String)
    (recipe : Recipe) (type_ids : String → Option Nat) : Option ProfitResult :=
  match type_ids component_name with
  | none => none
  | some product_type_id =>
    match getBest product_type_id true with
    | none => none
    | some buy_order =>
      match materialsLoop getBest type_ids 0 recipe.materials with
      | none => none
      | some total_raw_material_cost =>
        let effective_cost := total_raw_material_cost * discount * overhead
        let sell_price := buy_order.price
        let profit_isk := sell_price - effective_cost
        let profit_pct := if 0 < effective_cost then profit_isk / effective_cost * 100 else 0
        some ⟨component_name, profit_isk, profit_pct,
              buy_order.volume_remain.getD 0, sell_price, effective_cost⟩

/-- The function `compute_component_profit` of `t2_component_profitability_jita.py`:
`effective_cost = raw * MATERIAL_COST_MULTIPLIER * OVERHEAD_COST_MULTIPLIER`. -/
def compute_component_profit :
    (Nat → Bool → Option Order) → String → Recipe → (String → Option Nat) →
    Option ProfitResult :=
  compute_component_profit_with MATERIAL_COST_MULTIPLIER OVERHEAD_COST_MULTIPLIER

/-- The function `compute_component_profit` of `adv_moon_materials.py`:
`effective_cost = raw * MATERIAL_COST_MULTIPLIER *
(OVERHEAD_COST_MULTIPLIER + REACTION_TAX - 1)`. -/
def adv_compute_component_profit :
    (Nat → Bool → Option Order) → String → Recipe → (String → Option Nat) →
    Option ProfitResult :=
  compute_component_profit_with ADV_MATERIAL_COST_MULTIPLIER
    (ADV_OVERHEAD_COST_MULTIPLIER + REACTION_TAX - 1)

/-- The result-collection loop of `main`: per-item `None` results are
skipped, the run continues with the next item. -/
def runAll (getBest : Nat → Bool → Option Order) (type_ids : String → Option Nat)
    (recipes : List (String × Recipe)) : List ProfitResult :=
  recipes.filterMap (fun p => compute_component_profit getBest p.1 p.2 type_ids)

/-- Insert a result into a list already sorted by `profit_pct` descending,
before the first entry it is at least as profitable as. Together with
`sortDesc` this is a stable descending sort, the semantics of
`results.sort(key=lambda r: r["profit_pct"], reverse=True)` (Python's
sort is stable, also with `reverse=True`). -/
def insertDesc (r : ProfitResult) : List ProfitResult → List ProfitResult
  | [] => [r]
  | x :: xs => if x.profit_pct ≤ r.profit_pct then r :: x :: xs else x :: insertDesc r xs

/-- Stable sort by `profit_pct` descending. -/
def sortDesc : List ProfitResult → List ProfitResult
  | [] => []
  | x :: xs => insertDesc x (sortDesc xs)

/-- The ranked output of `main`: the successful results sorted by
`profit_pct` descending. -/
def rankedResults (getBest : Nat → Bool → Option Order)
    (type_ids : String → Option Nat) (recipes : List (String × Recipe)) :
    List ProfitResult :=
  sortDesc (runAll getBest type_ids recipes)

/-! Concrete instances (the scenario of spec §8: Widget with materials
A×2 at price 10 and B×1 at price 20, best buy 100), used to evaluate the
embedded code on explicit inputs. -/

/-- Jita 4-4 station id. -/
def JITA : Nat := 60003760

/-- Best buy order on the Widget: price 100, 5 units wanted. -/
def oBuyW : Order := ⟨some JITA, 100, some 5⟩

/-- Best buy order on the Widget with the `volume_remain` field absent. -/
def oBuyN : Order := ⟨some JITA, 100, none⟩

/-- Best sell order on material A: price 10. -/
def oSellA : Order := ⟨some JITA, 10, some 50⟩

/-- Best sell order on material B: price 20. -/
def oSellB : Order := ⟨some JITA, 20, some 7⟩

/-- Identifier mapping: Widget ↦ 1, A ↦ 2, B ↦ 3; C unresolved. -/
def tyW : String → Option Nat := fun s =>
  if s = "Widget" then some 1
  else if s = "A" then some 2
  else if s = "B" then some 3
  else none

/-- Best-order source for the Widget scenario. -/
def gbW : Nat → Bool → Option Order := fun n b =>
  if b then (if n = 1 then some oBuyW else none)
  else if n = 2 then some oSellA
  else if n = 3 then some oSellB
  else none

/-- Same source but the Widget buy order lacks `volume_remain`. -/
def gbN : Nat → Bool → Option Order := fun n b =>
  if b then (if n = 1 then some oBuyN else none)
  else if n = 2 then some oSellA
  else if n = 3 then some oSellB
  else none

/-- The Widget recipe: 2 × A, 1 × B. -/
def recW : Recipe := ⟨[("A", 2), ("B", 1)]⟩

/-- A recipe with an unresolvable material C. -/
def recBad : Recipe := ⟨[("C", 1)]⟩

/-- Material identifiers of the Widget recipe. -/
def midsW : String → Nat := fun s => if s = "A" then 2 else 3

/-- Best sell orders of the Widget recipe's materials. -/
def sosW : String → Order := fun s => if s = "A" then oSellA else oSellB

/-- The profitability result of the Widget under the 0.9 / 1.15
multipliers: raw cost 40, effective cost 41.4, profit 58.6. -/
def rW : ProfitResult := ⟨"Widget", 293/5, 29300/207, 5, 100, 207/5⟩

/-- Same result when the buy order lacks `volume_remain`: volume 0. -/
def rN : ProfitResult := ⟨"Widget", 293/5, 29300/207, 0, 100, 207/5⟩

/-- A sell order at Jita at price 5 (first seen). -/
def oA5 : Order := ⟨some JITA, 5, some 1⟩

/-- A sell order away from Jita at the lowest price overall. -/
def oB1 : Order := ⟨some 99, 1, some 1⟩

/-- A second Jita sell order at price 5 (tie with `oA5`, seen later). -/
def oC5 : Order := ⟨some JITA, 5, some 2⟩

/-- A Jita sell order at price 7. -/
def oD7 : Order := ⟨some JITA, 7, some 1⟩

/-- An order page mixing venues and a price tie. -/
def ordersW : List Order := [oB1, oA5, oC5, oD7]

/-- A market service answering every request with 204 No Content. -/
def svc204 : Nat → Resp := fun _ => ⟨204, [], none⟩

/-- A market service answering every request with 429 (rate limited). -/
def svc429 : Nat → Resp := fun _ => ⟨429, [], none⟩

/-- A cached best order. -/
def oW : Order := ⟨some JITA, 10, some 3⟩

/-- A cache holding `oW` under type id 7. -/
def cW : Cache := fun n => if n = 7 then some oW else none

/-! Theorems. -/

/-- When every material of the list resolves to an identifier (`mids`)
with a best sell order (`sos`), the material loop accumulates exactly
the sum of quantity × unit price. -/
theorem materialsLoop_resolves (getBest : Nat → Bool → Option Order)
    (type_ids : String → Option Nat) (mids : String → Nat) (sos : String → Order) :
    ∀ (mats : List (String × ℚ)) (acc : ℚ),
      (∀ p ∈ mats, type_ids p.1 = some (mids p.1) ∧
        getBest (mids p.1) false = some (sos p.1)) →
      materialsLoop getBest type_ids acc mats =
        some (acc + (mats.map (fun p => p.2 * (sos p.1).price)).sum) := by
  intro mats
  induction mats with
  | nil => intro acc _; simp [materialsLoop]
  | cons p rest ih =>
    intro acc h
    obtain ⟨mat, qty⟩ := p
    have h1 : type_ids mat = some (mids mat) :=
      (h (mat, qty) (List.mem_cons_self _ _)).1
    have h2 : getBest (mids mat) false = some (sos mat) :=
      (h (mat, qty) (List.mem_cons_self _ _)).2
    simp only [materialsLoop, h1, h2]
    rw [ih (acc + qty * (sos mat).price)
      (fun q hq => h q (List.mem_cons_of_mem _ hq))]
    congr 1
    simp only [List.map_cons, List.sum_cons]
    ring

/-- C1: for every finished item whose recipe materials and the item
itself all resolve to identifiers and all have a best order at the
target venue, the aggregator returns a result whose effective cost is
exactly (Σ quantity × best acquisition unit price) × discount × overhead
(the two scripts instantiate `discount`/`overhead` with their module
constants). -/
theorem C1_effective_cost_formula (discount overhead : ℚ)
    (getBest : Nat → Bool → Option Order) (type_ids : String → Option Nat)
    (name : String) (recipe : Recipe) (pid : Nat) (bo : Order)
    (mids : String → Nat) (sos : String → Order)
    (h1 : type_ids name = some pid)
    (h2 : getBest pid true = some bo)
    (h3 : ∀ p ∈ recipe.materials, type_ids p.1 = some (mids p.1) ∧
      getBest (mids p.1) false = some (sos p.1)) :
    ∃ r, compute_component_profit_with discount overhead getBest name recipe type_ids
        = some r ∧
      r.cost = (recipe.materials.map (fun p => p.2 * (sos p.1).price)).sum
        * discount * overhead := by
  unfold compute_component_profit_with
  simp only [h1, h2,
    materialsLoop_resolves getBest type_ids mids sos recipe.materials 0 h3]
  exact ⟨_, rfl, by simp⟩

/-- Witness: the spec §8 Widget scenario under the T2 script's
multipliers: effective cost = (2·10 + 1·20) · 0.9 · 1.15. -/
theorem C1_effective_cost_formula_witness :
    ∃ r, compute_component_profit_with MATERIAL_COST_MULTIPLIER
        OVERHEAD_COST_MULTIPLIER gbW "Widget" recW tyW = some r ∧
      r.cost = (recW.materials.map (fun p => p.2 * (sosW p.1).price)).sum
        * MATERIAL_COST_MULTIPLIER * OVERHEAD_COST_MULTIPLIER :=
  C1_effective_cost_formula MATERIAL_COST_MULTIPLIER OVERHEAD_COST_MULTIPLIER
    gbW tyW "Widget" recW 1 oBuyW midsW sosW (by decide) (by decide) (by decide)

/-- When some material of the list is unresolved or has no best sell
order, the material loop fails. -/
theorem materialsLoop_fails (getBest : Nat → Bool → Option Order)
    (type_ids : String → Option Nat) :
    ∀ (mats : List (String × ℚ)) (acc : ℚ),
      (∃ p ∈ mats, type_ids p.1 = none ∨
        ∃ mid, type_ids p.1 = some mid ∧ getBest mid false = none) →
      materialsLoop getBest type_ids acc mats = none := by
  intro mats
  induction mats with
  | nil => intro acc h; simp at h
  | cons hd rest ih =>
    intro acc h
    obtain ⟨mat, qty⟩ := hd
    obtain ⟨p, hp, hfail⟩ := h
    rcases List.mem_cons.mp hp with hhead | htail
    · subst hhead
      rcases hfail with hna | ⟨mid, hmid, hno⟩
      · have hna2 : type_ids mat = none := hna
        simp only [materialsLoop, hna2]
      · have hmid2 : type_ids mat = some mid := hmid
        simp only [materialsLoop, hmid2, hno]
    · cases hty : type_ids mat with
      | none => simp only [materialsLoop, hty]
      | some mid =>
        cases hgb : getBest mid false with
        | none => simp only [materialsLoop, hty, hgb]
        | some so =>
          simp only [materialsLoop, hty, hgb]
          exact ih _ ⟨p, htail, hfail⟩

/-- C2: an item whose own name is unresolved, or whose disposal-side
best order is absent, or any of whose materials is unresolved or lacks
an acquisition-side best order, yields an explicit failure (`none`), is
absent from the final ranked list, and the run continues: the ranked
output equals the one computed from the remaining items alone. -/
theorem C2_failure_skips_item (getBest : Nat → Bool → Option Order)
    (type_ids : String → Option Nat) (name : String) (recipe : Recipe)
    (pre post : List (String × Recipe))
    (hfail : type_ids name = none ∨
      (∃ pid, type_ids name = some pid ∧ getBest pid true = none) ∨
      (∃ p ∈ recipe.materials, type_ids p.1 = none ∨
        ∃ mid, type_ids p.1 = some mid ∧ getBest mid false = none)) :
    compute_component_profit getBest name recipe type_ids = none ∧
    rankedResults getBest type_ids (pre ++ (name, recipe) :: post) =
      rankedResults getBest type_ids (pre ++ post) := by
  have hnone : compute_component_profit getBest name recipe type_ids = none := by
    rcases hfail with h | ⟨pid, h1, h2⟩ | hm
    · simp [compute_component_profit, compute_component_profit_with, h]
    · simp [compute_component_profit, compute_component_profit_with, h1, h2]
    · unfold compute_component_profit compute_component_profit_with
      cases hty : type_ids name with
      | none => simp only [hty]
      | some pid =>
        simp only [hty]
        cases hgb : getBest pid true with
        | none => simp only [hgb]
        | some bo =>
          simp only [hgb,
            materialsLoop_fails getBest type_ids recipe.materials 0 hm]
  refine ⟨hnone, ?_⟩
  unfold rankedResults runAll
  rw [List.filterMap_append, List.filterMap_append, List.filterMap_cons]
  simp only [hnone]

/-- Witness: a recipe with the unresolvable material C is skipped and
the ranked output is that of the remaining recipe table. -/
theorem C2_failure_skips_item_witness :
    compute_component_profit gbW "Bad" recBad tyW = none ∧
    rankedResults gbW tyW ([] ++ ("Bad", recBad) :: [("Widget", recW)]) =
      rankedResults gbW tyW ([] ++ [("Widget", recW)]) :=
  C2_failure_skips_item gbW tyW "Bad" recBad [] [("Widget", recW)]
    (Or.inr (Or.inr ⟨("C", 1), by decide, Or.inl (by decide)⟩))

/-- C3: every successful cost breakdown satisfies
`profit = disposal price − effective cost`,
`profit_pct = 100 · profit / effective cost` when the cost is positive,
and `profit_pct = 0` when the cost is zero — the function is total, so
no exception and no infinite value arises. -/
theorem C3_profit_formulas (discount overhead : ℚ)
    (getBest : Nat → Bool → Option Order) (name : String) (recipe : Recipe)
    (type_ids : String → Option Nat) (r : ProfitResult)
    (h : compute_component_profit_with discount overhead getBest name recipe type_ids
      = some r) :
    r.profit_isk = r.sell_price - r.cost ∧
    (0 < r.cost → r.profit_pct = 100 * r.profit_isk / r.cost) ∧
    (r.cost = 0 → r.profit_pct = 0) := by
  unfold compute_component_profit_with at h
  cases hty : type_ids name with
  | none => simp [hty] at h
  | some pid =>
    simp only [hty] at h
    cases hgb : getBest pid true with
    | none => simp [hgb] at h
    | some bo =>
      simp only [hgb] at h
      cases hml : materialsLoop getBest type_ids 0 recipe.materials with
      | none => simp [hml] at h
      | some raw =>
        simp only [hml, Option.some.injEq] at h
        subst h
        refine ⟨rfl, ?_, ?_⟩
        · intro hpos
          have hp2 : 0 < raw * discount * overhead := hpos
          show (if 0 < raw * discount * overhead then
              (bo.price - raw * discount * overhead) /
                (raw * discount * overhead) * 100 else 0)
            = 100 * (bo.price - raw * discount * overhead) /
                (raw * discount * overhead)
          rw [if_pos hp2]
          ring
        · intro hzero
          have hz2 : raw * discount * overhead = 0 := hzero
          show (if 0 < raw * discount * overhead then
              (bo.price - raw * discount * overhead) /
                (raw * discount * overhead) * 100 else 0) = 0
          rw [hz2]
          simp

/-- Witness: the Widget scenario result satisfies the three
profit equations. -/
theorem C3_profit_formulas_witness :
    rW.profit_isk = rW.sell_price - rW.cost ∧
    (0 < rW.cost → rW.profit_pct = 100 * rW.profit_isk / rW.cost) ∧
    (rW.cost = 0 → rW.profit_pct = 0) :=
  C3_profit_formulas MATERIAL_COST_MULTIPLIER OVERHEAD_COST_MULTIPLIER
    gbW "Widget" recW tyW rW (by
      simp +decide [compute_component_profit_with, materialsLoop, tyW, gbW,
        recW, rW, oBuyW, oSellA, oSellB, MATERIAL_COST_MULTIPLIER,
        OVERHEAD_COST_MULTIPLIER]
      norm_num)

/-- C10: every successful result reports as available buy volume the
best disposal-side order's `volume_remain` field, read with default 0
when the field is absent — the result is still produced. -/
theorem C10_buy_volume_default (discount overhead : ℚ)
    (getBest : Nat → Bool → Option Order) (name : String) (recipe : Recipe)
    (type_ids : String → Option Nat) (pid : Nat) (bo : Order) (r : ProfitResult)
    (h1 : type_ids name = some pid)
    (h2 : getBest pid true = some bo)
    (h3 : compute_component_profit_with discount overhead getBest name recipe type_ids
      = some r) :
    r.buy_volume = bo.volume_remain.getD 0 ∧
    (bo.volume_remain = none → r.buy_volume = 0) := by
  unfold compute_component_profit_with at h3
  simp only [h1, h2] at h3
  cases hml : materialsLoop getBest type_ids 0 recipe.materials with
  | none => simp [hml] at h3
  | some raw =>
    simp only [hml, Option.some.injEq] at h3
    subst h3
    refine ⟨rfl, fun hv => ?_⟩
    show bo.volume_remain.getD 0 = 0
    rw [hv]
    rfl

/-- Witness: with the `volume_remain` field absent from the best buy
order, the Widget result is produced with buy volume 0. -/
theorem C10_buy_volume_default_witness :
    rN.buy_volume = oBuyN.volume_remain.getD 0 ∧
    (oBuyN.volume_remain = none → rN.buy_volume = 0) :=
  C10_buy_volume_default MATERIAL_COST_MULTIPLIER OVERHEAD_COST_MULTIPLIER
    gbN "Widget" recW tyW 1 oBuyN rN (by decide) (by decide) (by
      simp +decide [compute_component_profit_with, materialsLoop, tyW, gbN,
        recW, rN, oBuyN, oSellA, oSellB, MATERIAL_COST_MULTIPLIER,
        OVERHEAD_COST_MULTIPLIER]
      norm_num)

/-- Inserting into a sorted-descending list permutes the extended list. -/
theorem insertDesc_perm (r : ProfitResult) (l : List ProfitResult) :
    (insertDesc r l).Perm (r :: l) := by
  induction l with
  | nil => simp [insertDesc]
  | cons x xs ih =>
    simp only [insertDesc]
    split
    · exact List.Perm.refl _
    · exact (ih.cons x).trans (List.Perm.swap r x xs)

/-- Sorting permutes the input. -/
theorem sortDesc_perm (l : List ProfitResult) : (sortDesc l).Perm l := by
  induction l with
  | nil => simp [sortDesc]
  | cons x xs ih => exact (insertDesc_perm x (sortDesc xs)).trans (ih.cons x)

/-- Insertion preserves descending sortedness by `profit_pct`. -/
theorem insertDesc_pairwise (r : ProfitResult) (l : List ProfitResult)
    (h : List.Pairwise (fun a b => b.profit_pct ≤ a.profit_pct) l) :
    List.Pairwise (fun a b => b.profit_pct ≤ a.profit_pct) (insertDesc r l) := by
  induction l with
  | nil => simp [insertDesc]
  | cons x xs ih =>
    rcases List.pairwise_cons.mp h with ⟨hx, hxs⟩
    simp only [insertDesc]
    split
    case isTrue hle =>
      refine List.pairwise_cons.mpr ⟨?_, h⟩
      intro y hy
      rcases List.mem_cons.mp hy with rfl | hy2
      · exact hle
      · exact le_trans (hx y hy2) hle
    case isFalse hgt =>
      refine List.pairwise_cons.mpr ⟨?_, ih hxs⟩
      intro y hy
      rcases List.mem_cons.mp ((insertDesc_perm r xs).mem_iff.mp hy) with rfl | hy4
      · exact le_of_not_le hgt
      · exact hx y hy4

/-- Sorted output is descending in `profit_pct`. -/
theorem sortDesc_pairwise (l : List ProfitResult) :
    List.Pairwise (fun a b => b.profit_pct ≤ a.profit_pct) (sortDesc l) := by
  induction l with
  | nil => simp [sortDesc]
  | cons x xs ih => exact insertDesc_pairwise x (sortDesc xs) ih

/-- Insertion places an element with key `q` in front of exactly the
tail of the `q`-keyed entries: every entry it passes over has a strictly
larger key. -/
theorem insertDesc_filter (q : ℚ) (r : ProfitResult) (l : List ProfitResult) :
    (insertDesc r l).filter (fun x => decide (x.profit_pct = q)) =
      if r.profit_pct = q then
        r :: l.filter (fun x => decide (x.profit_pct = q))
      else l.filter (fun x => decide (x.profit_pct = q)) := by
  induction l with
  | nil =>
    by_cases hr : r.profit_pct = q
    · simp [insertDesc, List.filter_cons, hr]
    · simp [insertDesc, List.filter_cons, hr]
  | cons x xs ih =>
    simp only [insertDesc]
    split
    case isTrue hle =>
      by_cases hr : r.profit_pct = q
      · simp [List.filter_cons, hr]
      · simp [List.filter_cons, hr]
    case isFalse hgt =>
      by_cases hr : r.profit_pct = q
      · have hx : ¬ x.profit_pct = q := fun he => hgt (le_of_eq (he.trans hr.symm))
        simp [List.filter_cons, hx, hr, ih]
      · simp [List.filter_cons, hr, ih]

/-- Stability of `sortDesc`: the subsequence at each key is preserved. -/
theorem sortDesc_filter (q : ℚ) (l : List ProfitResult) :
    (sortDesc l).filter (fun x => decide (x.profit_pct = q)) =
      l.filter (fun x => decide (x.profit_pct = q)) := by
  induction l with
  | nil => rfl
  | cons x xs ih =>
    simp only [sortDesc, insertDesc_filter, List.filter_cons]
    by_cases hx : x.profit_pct = q
    · simp [hx, ih]
    · simp [hx, ih]

/-- C6: the ranked output is a permutation of the successful results,
sorted by `profit_pct` descending (any earlier entry has a
`profit_pct` at least that of any later entry), and stable: for every
key the subsequence of results with that `profit_pct` keeps the relative
order the recipes have in the recipe table. -/
theorem C6_ranked_sorted_stable (getBest : Nat → Bool → Option Order)
    (type_ids : String → Option Nat) (recipes : List (String × Recipe)) :
    (rankedResults getBest type_ids recipes).Perm
      (runAll getBest type_ids recipes) ∧
    List.Pairwise (fun a b => b.profit_pct ≤ a.profit_pct)
      (rankedResults getBest type_ids recipes) ∧
    ∀ q : ℚ, (rankedResults getBest type_ids recipes).filter
        (fun x => decide (x.profit_pct = q)) =
      (runAll getBest type_ids recipes).filter
        (fun x => decide (x.profit_pct = q)) :=
  ⟨sortDesc_perm _, sortDesc_pairwise _, fun q => sortDesc_filter q _⟩

/-- The order-scan fold from a present incumbent equals `chooseBest`
over the venue-matched orders. -/
theorem foldl_considerOrder_some (b : Bool) (st : Nat) :
    ∀ (l : List Order) (cur : Order),
      l.foldl (considerOrder b st) (some cur) =
        some (chooseBest b cur
          (l.filter (fun o => decide (o.location_id = some st)))) := by
  intro l
  induction l with
  | nil => intro cur; simp [chooseBest]
  | cons o rest ih =>
    intro cur
    by_cases hloc : o.location_id = some st
    · have hstep : considerOrder b st (some cur) o =
          some (if beats b cur o then o else cur) := by
        simp only [considerOrder, hloc]
        cases b <;> simp [beats] <;> split <;> rfl
      simp only [List.foldl_cons, hstep, List.filter_cons, hloc]
      rw [ih]
      simp [chooseBest]
    · have hstep : considerOrder b st (some cur) o = some cur := by
        simp [considerOrder, hloc]
      simp only [List.foldl_cons, hstep, List.filter_cons]
      rw [ih]
      simp [hloc]

/-- The order-scan fold from `none` (`best_order = None`) equals
`chooseBest` seeded with the first venue-matched order, or `none` when
the venue has no matching order. -/
theorem foldl_considerOrder_none (b : Bool) (st : Nat) (l : List Order) :
    l.foldl (considerOrder b st) none =
      match l.filter (fun o => decide (o.location_id = some st)) with
      | [] => none
      | x :: rest => some (chooseBest b x rest) := by
  induction l with
  | nil => rfl
  | cons o rest ih =>
    by_cases hloc : o.location_id = some st
    · have hstep : considerOrder b st none o = some o := by
        simp [considerOrder, hloc]
      simp only [List.foldl_cons, hstep, List.filter_cons, hloc]
      rw [foldl_considerOrder_some]
      simp
    · have hstep : considerOrder b st none o = none := by
        simp [considerOrder, hloc]
      simp only [List.foldl_cons, hstep, List.filter_cons]
      rw [ih]
      simp [hloc]

/-- The selected order is the incumbent or one of the scanned orders. -/
theorem chooseBest_mem (b : Bool) :
    ∀ (l : List Order) (cur : Order), chooseBest b cur l ∈ cur :: l := by
  intro l
  induction l with
  | nil => intro cur; simp [chooseBest]
  | cons o rest ih =>
    intro cur
    simp only [chooseBest]
    rcases List.mem_cons.mp (ih (if beats b cur o then o else cur)) with h | h
    · rw [h]
      split <;> simp
    · exact List.mem_cons_of_mem _ (List.mem_cons_of_mem _ h)

/-- On the buy side the selected order has the maximal price. -/
theorem chooseBest_le_buy :
    ∀ (l : List Order) (cur o : Order), o ∈ cur :: l →
      o.price ≤ (chooseBest true cur l).price := by
  intro l
  induction l with
  | nil =>
    intro cur o ho
    rcases List.mem_cons.mp ho with rfl | h
    · simp [chooseBest]
    · simp at h
  | cons x rest ih =>
    intro cur o ho
    have hstep : cur.price ≤ (if beats true cur x then x else cur).price ∧
        x.price ≤ (if beats true cur x then x else cur).price := by
      by_cases hbx : beats true cur x
      · rw [if_pos hbx]
        exact ⟨le_of_lt (by simpa [beats] using hbx), le_refl _⟩
      · rw [if_neg hbx]
        exact ⟨le_refl _, le_of_not_lt (by simpa [beats] using hbx)⟩
    simp only [chooseBest]
    rcases List.mem_cons.mp ho with rfl | ho2
    · exact le_trans hstep.1 (ih _ _ (List.mem_cons_self _ _))
    rcases List.mem_cons.mp ho2 with rfl | ho3
    · exact le_trans hstep.2 (ih _ _ (List.mem_cons_self _ _))
    · exact ih _ o (List.mem_cons_of_mem _ ho3)

/-- On the sell side the selected order has the minimal price. -/
theorem chooseBest_le_sell :
    ∀ (l : List Order) (cur o : Order), o ∈ cur :: l →
      (chooseBest false cur l).price ≤ o.price := by
  intro l
  induction l with
  | nil =>
    intro cur o ho
    rcases List.mem_cons.mp ho with rfl | h
    · simp [chooseBest]
    · simp at h
  | cons x rest ih =>
    intro cur o ho
    have hstep : (if beats false cur x then x else cur).price ≤ cur.price ∧
        (if beats false cur x then x else cur).price ≤ x.price := by
      by_cases hbx : beats false cur x
      · rw [if_pos hbx]
        exact ⟨le_of_lt (by simpa [beats] using hbx), le_refl _⟩
      · rw [if_neg hbx]
        exact ⟨le_refl _, le_of_not_lt (by simpa [beats] using hbx)⟩
    simp only [chooseBest]
    rcases List.mem_cons.mp ho with rfl | ho2
    · exact le_trans (ih _ _ (List.mem_cons_self _ _)) hstep.1
    rcases List.mem_cons.mp ho2 with rfl | ho3
    · exact le_trans (ih _ _ (List.mem_cons_self _ _)) hstep.2
    · exact ih _ o (List.mem_cons_of_mem _ ho3)

/-- First-seen tie-break, buy side: scanning the matched orders, the
first one carrying the selected price is the selected order itself. -/
theorem chooseBest_first_buy :
    ∀ (l : List Order) (cur : Order),
      (cur :: l).find? (fun o => decide (o.price = (chooseBest true cur l).price))
        = some (chooseBest true cur l) := by
  intro l
  induction l with
  | nil => intro cur; simp [chooseBest, List.find?]
  | cons x rest ih =>
    intro cur
    by_cases hbx : beats true cur x
    · simp only [chooseBest, if_pos hbx]
      have hlt : cur.price < (chooseBest true x rest).price :=
        lt_of_lt_of_le (by simpa [beats] using hbx)
          (chooseBest_le_buy rest x x (List.mem_cons_self _ _))
      have hcur : (fun o => decide (o.price = (chooseBest true x rest).price)) cur
          = false := by simp [ne_of_lt hlt]
      rw [List.find?_cons_of_neg _ (by simp [ne_of_lt hlt])]
      exact ih x
    · simp only [chooseBest, if_neg hbx]
      by_cases hq : cur.price = (chooseBest true cur rest).price
      · have hceq : cur = chooseBest true cur rest := by
          have h1 := ih cur
          rw [List.find?_cons_of_pos _ (by simp [hq])] at h1
          exact Option.some.inj h1
        rw [List.find?_cons_of_pos _ (by simp [hq])]
        rw [← hceq]
      · have hxle : x.price ≤ cur.price :=
          le_of_not_lt (by simpa [beats] using hbx)
        have hcle : cur.price ≤ (chooseBest true cur rest).price :=
          chooseBest_le_buy rest cur cur (List.mem_cons_self _ _)
        have hx : ¬ x.price = (chooseBest true cur rest).price := by
          intro he
          exact hq (le_antisymm hcle (he ▸ hxle))
        have h1 := ih cur
        rw [List.find?_cons_of_neg _ (by simp [hq])] at h1
        rw [List.find?_cons_of_neg _ (by simp [hq]),
          List.find?_cons_of_neg _ (by simp [hx])]
        exact h1

/-- First-seen tie-break, sell side. -/
theorem chooseBest_first_sell :
    ∀ (l : List Order) (cur : Order),
      (cur :: l).find? (fun o => decide (o.price = (chooseBest false cur l).price))
        = some (chooseBest false cur l) := by
  intro l
  induction l with
  | nil => intro cur; simp [chooseBest, List.find?]
  | cons x rest ih =>
    intro cur
    by_cases hbx : beats false cur x
    · simp only [chooseBest, if_pos hbx]
      have hlt : (chooseBest false x rest).price < cur.price :=
        lt_of_le_of_lt (chooseBest_le_sell rest x x (List.mem_cons_self _ _))
          (by simpa [beats] using hbx)
      rw [List.find?_cons_of_neg _ (by simp [(ne_of_lt hlt).symm])]
      exact ih x
    · simp only [chooseBest, if_neg hbx]
      by_cases hq : cur.price = (chooseBest false cur rest).price
      · have hceq : cur = chooseBest false cur rest := by
          have h1 := ih cur
          rw [List.find?_cons_of_pos _ (by simp [hq])] at h1
          exact Option.some.inj h1
        rw [List.find?_cons_of_pos _ (by simp [hq])]
        rw [← hceq]
      · have hxge : cur.price ≤ x.price :=
          le_of_not_lt (by simpa [beats] using hbx)
        have hcle : (chooseBest false cur rest).price ≤ cur.price :=
          chooseBest_le_sell rest cur cur (List.mem_cons_self _ _)
        have hx : ¬ x.price = (chooseBest false cur rest).price := by
          intro he
          exact hq (le_antisymm (he ▸ hxge) hcle)
        have h1 := ih cur
        rw [List.find?_cons_of_neg _ (by simp [hq])] at h1
        rw [List.find?_cons_of_neg _ (by simp [hq]),
          List.find?_cons_of_neg _ (by simp [hx])]
        exact h1

/-- C5: scanning a fetched order set, the selector returns `none` iff
the venue has no matching order; a returned order is a fetched order at
the venue, extremal in price (maximal when buying-side orders are
scanned, minimal when sell-side orders are scanned), and among matched
orders of equal price the first-seen one wins: it is the first matched
order carrying the selected price. -/
theorem C5_best_price_selection (b : Bool) (st : Nat) (orders : List Order) :
    (orders.foldl (considerOrder b st) none = none ↔
      orders.filter (fun o => decide (o.location_id = some st)) = []) ∧
    ∀ bo, orders.foldl (considerOrder b st) none = some bo →
      bo ∈ orders ∧ bo.location_id = some st ∧
      (∀ o ∈ orders, o.location_id = some st →
        (if b then o.price ≤ bo.price else bo.price ≤ o.price)) ∧
      (orders.filter (fun o => decide (o.location_id = some st))).find?
        (fun o => decide (o.price = bo.price)) = some bo := by
  cases hfilter : orders.filter (fun o => decide (o.location_id = some st)) with
  | nil =>
    have hfold2 : orders.foldl (considerOrder b st) none = none := by
      rw [foldl_considerOrder_none, hfilter]
    refine ⟨by simp [hfold2], ?_⟩
    intro bo hbo
    rw [hfold2] at hbo
    simp at hbo
  | cons x rest =>
    have hfold2 : orders.foldl (considerOrder b st) none
        = some (chooseBest b x rest) := by
      rw [foldl_considerOrder_none, hfilter]
    constructor
    · constructor
      · intro h
        rw [hfold2] at h
        simp at h
      · intro h
        simp at h
    · intro bo hbo
      rw [hfold2] at hbo
      have hbo2 : chooseBest b x rest = bo := Option.some.inj hbo
      subst hbo2
      have hmem : chooseBest b x rest ∈ x :: rest := chooseBest_mem b rest x
      have hmemf : chooseBest b x rest ∈ orders ∧
          decide ((chooseBest b x rest).location_id = some st) = true :=
        List.mem_filter.mp (by rw [hfilter]; exact hmem)
      refine ⟨hmemf.1, by simpa using hmemf.2, ?_, ?_⟩
      · intro o ho hloc
        have hof : o ∈ x :: rest := by
          rw [← hfilter]
          exact List.mem_filter.mpr ⟨ho, by simp [hloc]⟩
        cases b
        · simpa using chooseBest_le_sell rest x o hof
        · simpa using chooseBest_le_buy rest x o hof
      · cases b
        · exact chooseBest_first_sell rest x
        · exact chooseBest_first_buy rest x

/-- Witness: on a page mixing venues and containing a price tie, the
sell-side scan selects the first-seen Jita order at the minimal price. -/
theorem C5_best_price_selection_witness :
    oA5 ∈ ordersW ∧ oA5.location_id = some JITA ∧
    (∀ o ∈ ordersW, o.location_id = some JITA →
      (if false then o.price ≤ oA5.price else oA5.price ≤ o.price)) ∧
    (ordersW.filter (fun o => decide (o.location_id = some JITA))).find?
      (fun o => decide (o.price = oA5.price)) = some oA5 :=
  (C5_best_price_selection false JITA ordersW).2 oA5 (by decide)

/-- C7: the page loop stops, returning the best order accumulated so
far, when (a) the page number exceeds `max_pages`; (b) the response is
204 No Content; (c) a 200 page carries no orders; (d) a non-empty 200
page carries no `X-Pages` header; (e) the page number has reached the
declared total; and (f) an empty first page from the initial state
yields `none` (absence), not an error. -/
theorem C7_fetch_loop_stops (b : Bool) (st mp : Nat) (svc : Nat → Resp)
    (fuel i page : Nat) (best : Option Order) :
    (mp < page →
      fetchLoop b st mp svc (fuel+1) i page best = some (Except.ok best)) ∧
    (page ≤ mp → (svc i).status_code = 204 →
      fetchLoop b st mp svc (fuel+1) i page best = some (Except.ok best)) ∧
    (page ≤ mp → (svc i).status_code = 200 → (svc i).orders = [] →
      fetchLoop b st mp svc (fuel+1) i page best = some (Except.ok best)) ∧
    (page ≤ mp → (svc i).status_code = 200 → (svc i).orders ≠ [] →
      (svc i).x_pages = none →
      fetchLoop b st mp svc (fuel+1) i page best =
        some (Except.ok ((svc i).orders.foldl (considerOrder b st) best))) ∧
    (page ≤ mp → (svc i).status_code = 200 → (svc i).orders ≠ [] →
      ∀ total, (svc i).x_pages = some total → total ≤ page →
      fetchLoop b st mp svc (fuel+1) i page best =
        some (Except.ok ((svc i).orders.foldl (considerOrder b st) best))) ∧
    (1 ≤ mp → (svc 0).status_code = 200 → (svc 0).orders = [] →
      fetchLoop b st mp svc (fuel+1) 0 1 none = some (Except.ok none)) := by
  refine ⟨?_, ?_, ?_, ?_, ?_, ?_⟩
  · intro hgt
    simp [fetchLoop, hgt]
  · intro hle h204
    simp [fetchLoop, Nat.not_lt.mpr hle, isTransient, raisesFor, h204]
  · intro hle h200 hemp
    simp [fetchLoop, Nat.not_lt.mpr hle, isTransient, raisesFor, h200, hemp]
  · intro hle h200 hne hxp
    simp [fetchLoop, Nat.not_lt.mpr hle, isTransient, raisesFor, h200,
      List.isEmpty_iff, hne, hxp]
  · intro hle h200 hne total hxp htot
    simp [fetchLoop, Nat.not_lt.mpr hle, isTransient, raisesFor, h200,
      List.isEmpty_iff, hne, hxp, htot]
  · intro hmp h200 hemp
    simp [fetchLoop, Nat.not_lt.mpr hmp, isTransient, raisesFor, h200, hemp]

/-- Witness: against a service whose first page is 204 No Content, the
loop stops at once with an empty result. -/
theorem C7_fetch_loop_stops_witness :
    fetchLoop true JITA 10 svc204 1 0 1 none = some (Except.ok none) :=
  (C7_fetch_loop_stops true JITA 10 svc204 0 0 1 none).2.1 (by decide) rfl

/-- C8: a rate-limit or server-error status (420, 429, 500, 503, 504)
is recognised as transient; on such a response the loop neither aborts
nor advances the page: it re-requests the same page with the same
accumulated best; and against a persistently failing service the loop
never produces a result, whatever the fuel — it stalls indefinitely. -/
theorem C8_transient_retry_same_page (b : Bool) (st mp : Nat)
    (svc : Nat → Resp) (fuel i page : Nat) (best : Option Order) :
    (isTransient 420 = true ∧ isTransient 429 = true ∧
     isTransient 500 = true ∧ isTransient 503 = true ∧
     isTransient 504 = true) ∧
    (page ≤ mp → isTransient (svc i).status_code = true →
      fetchLoop b st mp svc (fuel+1) i page best =
        fetchLoop b st mp svc fuel (i+1) page best) ∧
    ((∀ j, isTransient (svc j).status_code = true) → page ≤ mp →
      ∀ f i2, fetchLoop b st mp svc f i2 page best = none) := by
  refine ⟨⟨rfl, rfl, rfl, rfl, rfl⟩, ?_, ?_⟩
  · intro hle htr
    simp [fetchLoop, Nat.not_lt.mpr hle, htr]
  · intro hall hle f
    induction f with
    | zero => intro i2; rfl
    | succ n ihn =>
      intro i2
      simp [fetchLoop, Nat.not_lt.mpr hle, hall i2, ihn]

/-- Witness: a service answering 429 forever never lets the loop
finish, for a concrete fuel. -/
theorem C8_transient_retry_same_page_witness :
    fetchLoop true JITA 10 svc429 5 0 1 none = none :=
  (C8_transient_retry_same_page true JITA 10 svc429 0 0 1 none).2.2
    (fun _ => rfl) (by decide) 5 0

/-- A populated cache entry survives any later call: a hit leaves the
cache untouched, and a miss stores only under the missed key. -/
theorem cache_preserved (svc : Nat → Resp) (fuel tid : Nat) (b : Bool)
    (mp st : Nat) (c : Cache) (k : Nat) (o : Order) (h : c k = some o) :
    (get_best_order_in_jita svc fuel tid b mp st c).2.1 k = some o := by
  unfold get_best_order_in_jita
  cases hc : c tid with
  | some o2 => exact h
  | none =>
    have hne : k ≠ tid := fun he => by rw [he, hc] at h; cases h
    cases hf : fetchLoop b st mp svc fuel 0 1 none with
    | none => exact h
    | some r =>
      cases r with
      | error e => exact h
      | ok obest =>
        cases obest with
        | none => exact h
        | some bo =>
          show (c.store tid bo) k = some o
          simp only [Cache.store, if_neg hne]
          exact h

/-- Across a whole run of calls threading one cache, a populated entry
is never overwritten, and every call for its key returns the cached
order with no fetch. -/
theorem runCalls_preserved (k : Nat) (o : Order) :
    ∀ (calls : List CallSpec) (c : Cache), c k = some o →
      (runCalls c calls).1 k = some o ∧
      ∀ t ∈ (runCalls c calls).2, t.1 = k →
        t.2 = (some (Except.ok (some o)), 0) := by
  intro calls
  induction calls with
  | nil => intro c h; exact ⟨h, by simp [runCalls]⟩
  | cons cs rest ih =>
    intro c h
    have hpres := cache_preserved cs.svc cs.fuel cs.type_id cs.buy cs.mp
      cs.station c k o h
    obtain ⟨ih1, ih2⟩ := ih _ hpres
    refine ⟨by simpa [runCalls] using ih1, ?_⟩
    intro t ht htk
    simp only [runCalls, List.mem_cons] at ht
    rcases ht with rfl | ht2
    · have hck : c cs.type_id = some o := by
        simp only at htk
        rw [htk]
        exact h
      simp [get_best_order_in_jita, hck]
    · exact ih2 t ht2 htk

/-- C4: per key within a run — a cache hit returns the cached order
with no network fetch and an unchanged cache; on a miss whose fetch
yields a non-absent best order that order is stored under the key; an
absent result is not cached (the cache is returned unchanged, so a
later call re-fetches); every cache miss performs exactly one fetch;
and once an entry is populated, every later call in the run for that
key returns the identical cached order with zero fetches and the entry
is never overwritten. -/
theorem C4_cache_memoization (c : Cache) (k : Nat) :
    (∀ o svc fuel b mp st, c k = some o →
      get_best_order_in_jita svc fuel k b mp st c
        = (some (Except.ok (some o)), c, 0)) ∧
    (∀ svc fuel b mp st bo, c k = none →
      fetchLoop b st mp svc fuel 0 1 none = some (Except.ok (some bo)) →
      get_best_order_in_jita svc fuel k b mp st c
        = (some (Except.ok (some bo)), c.store k bo, 1) ∧
      (c.store k bo) k = some bo) ∧
    (∀ svc fuel b mp st, c k = none →
      fetchLoop b st mp svc fuel 0 1 none = some (Except.ok none) →
      get_best_order_in_jita svc fuel k b mp st c
        = (some (Except.ok none), c, 1)) ∧
    (∀ svc fuel b mp st, c k = none →
      (get_best_order_in_jita svc fuel k b mp st c).2.2 = 1) ∧
    (∀ o calls, c k = some o →
      (runCalls c calls).1 k = some o ∧
      ∀ t ∈ (runCalls c calls).2, t.1 = k →
        t.2 = (some (Except.ok (some o)), 0)) := by
  refine ⟨?_, ?_, ?_, ?_, ?_⟩
  · intro o svc fuel b mp st h
    simp [get_best_order_in_jita, h]
  · intro svc fuel b mp st bo h hf
    refine ⟨by simp [get_best_order_in_jita, h, hf], ?_⟩
    simp [Cache.store]
  · intro svc fuel b mp st h hf
    simp [get_best_order_in_jita, h, hf]
  · intro svc fuel b mp st h
    simp only [get_best_order_in_jita, h]
    cases hf : fetchLoop b st mp svc fuel 0 1 none with
    | none => rfl
    | some r =>
      cases r with
      | error e => rfl
      | ok obest =>
        cases obest with
        | none => rfl
        | some bo => rfl
  · intro o calls h
    exact runCalls_preserved k o calls c h

/-- Witness: a call for the cached key 7 returns the cached order, an
unchanged cache and zero fetches. -/
theorem C4_cache_memoization_witness :
    get_best_order_in_jita svc204 1 7 true 10 JITA cW
      = (some (Except.ok (some oW)), cW, 0) :=
  (C4_cache_memoization cW 7).1 oW svc204 1 true 10 JITA rfl

/-- C9: when the cache already holds the key, the result of
`get_best_order_in_jita` depends only on the cached entry: two calls
differing in `is_buy` (and in every other argument but the cache)
return the same cached order with no fetch. -/
theorem C9_cache_hit_ignores_side (c : Cache) (k : Nat) (o : Order)
    (h : c k = some o) (svc1 svc2 : Nat → Resp) (fuel1 fuel2 : Nat)
    (b1 b2 : Bool) (mp1 mp2 st1 st2 : Nat) :
    get_best_order_in_jita svc1 fuel1 k b1 mp1 st1 c
      = get_best_order_in_jita svc2 fuel2 k b2 mp2 st2 c ∧
    get_best_order_in_jita svc1 fuel1 k b1 mp1 st1 c
      = (some (Except.ok (some o)), c, 0) := by
  constructor <;> simp [get_best_order_in_jita, h]

/-- Witness: a buy-side and a sell-side call on the cached key 7 agree. -/
theorem C9_cache_hit_ignores_side_witness :
    get_best_order_in_jita svc204 1 7 true 10 JITA cW
      = get_best_order_in_jita svc429 2 7 false 5 99 cW ∧
    get_best_order_in_jita svc204 1 7 true 10 JITA cW
      = (some (Except.ok (some oW)), cW, 0) :=
  C9_cache_hit_ignores_side cW 7 oW rfl svc204 svc429 1 2 true false 10 5 JITA 99

end EveScripts
